import Mathlib

/-!
Verification of the Plackett-Luce ranking-probability engine of the
olympic_predictions repository.

Python floats are modelled as exact rationals; a Python exception
(ZeroDivisionError escaping a function) is modelled by an Option-valued
function returning none.  Integer exponents model the float
strength_power, whose uses in the code are integral (default 2.0).
-/

namespace OlympicPredictions

/-- Athlete record as in model.py AthleteStrength. -/
structure AthleteStrength where
  athlete_id : String
  name : String
  country : String
  score : ℚ
  strength : ℚ
deriving DecidableEq

instance : Inhabited AthleteStrength := ⟨⟨"", "", "", 0, 0⟩⟩

/-- Per-athlete exact probabilities as in model.py AthletePrediction. -/
structure AthletePrediction where
  athlete_id : String
  name : String
  country : String
  score : ℚ
  strength : ℚ
  gold_prob : ℚ
  silver_prob : ℚ
  bronze_prob : ℚ
deriving DecidableEq

instance : Inhabited AthletePrediction := ⟨⟨"", "", "", 0, 0, 0, 0, 0⟩⟩

/-- Python max(a.score for a in athletes) over a nonempty list
(left fold of binary max, as the builtin computes it); 0 on the empty
list, where the source never calls it. -/
def maxScore : List AthleteStrength → ℚ
  | [] => 0
  | a :: rest => rest.foldl (fun m b => max m b.score) a.score

/-- PlackettLuceModel.calculate_strengths: strength = (score/max_score)^power.
Returns none when max_score = 0 and the list is nonempty, modelling the
ZeroDivisionError Python raises at score / max_score.  There is no
epsilon floor in this function in the source. -/
def calculate_strengths (power : ℕ) (athletes : List AthleteStrength) :
    Option (List AthleteStrength) :=
  if athletes.isEmpty then some []
  else if maxScore athletes = 0 then none
  else some (athletes.map fun a =>
    { a with strength := (a.score / maxScore athletes) ^ power })

/-- The value strengths[i] / sum(strengths) computed by
_gold_probability when its division does not raise. -/
def goldFormula (strengths : List ℚ) (athlete_idx : ℕ) : ℚ :=
  strengths.getD athlete_idx 0 / strengths.sum

/-- The value accumulated by the _silver_probability loop
(for k in range(n): if k == athlete_idx: continue;
acc += (s_k/S) * (s_i/(S - s_k))) when none of its divisions raise. -/
def silverFormula (strengths : List ℚ) (athlete_idx : ℕ) : ℚ :=
  ∑ k ∈ Finset.range strengths.length,
    if k = athlete_idx then 0
    else (strengths.getD k 0 / strengths.sum) *
      (strengths.getD athlete_idx 0 / (strengths.sum - strengths.getD k 0))

/-- The value accumulated by the _bronze_probability double loop over k
then j, skipping k = i, j = i and j = k, adding
(s_k/S) * (s_j/(S - s_k)) * (s_i/(S - s_k - s_j)), when none of its
divisions raise. -/
def bronzeFormula (strengths : List ℚ) (athlete_idx : ℕ) : ℚ :=
  ∑ k ∈ Finset.range strengths.length,
    if k = athlete_idx then 0
    else ∑ j ∈ Finset.range strengths.length,
      if j = athlete_idx ∨ j = k then 0
      else (strengths.getD k 0 / strengths.sum) *
        (strengths.getD j 0 / (strengths.sum - strengths.getD k 0)) *
        (strengths.getD athlete_idx 0 /
          (strengths.sum - strengths.getD k 0 - strengths.getD j 0))

/-- PlackettLuceModel._gold_probability.  Python divides by
sum(strengths) and raises ZeroDivisionError when it is 0, modelled by
none. -/
def gold_probability (strengths : List ℚ) (athlete_idx : ℕ) : Option ℚ :=
  if strengths.sum = 0 then none
  else some (goldFormula strengths athlete_idx)

/-- PlackettLuceModel._silver_probability.  For each loop index
k ≠ athlete_idx, Python divides by S (raises when S = 0) and then by
S - s_k (raises when that is 0); the whole call raises, modelled by
none, exactly when some iterated k hits such a zero denominator. -/
def silver_probability (strengths : List ℚ) (athlete_idx : ℕ) : Option ℚ :=
  if ∃ k ∈ Finset.range strengths.length, k ≠ athlete_idx ∧
      (strengths.sum = 0 ∨ strengths.sum - strengths.getD k 0 = 0)
  then none
  else some (silverFormula strengths athlete_idx)

/-- PlackettLuceModel._bronze_probability.  For each outer index
k ≠ athlete_idx, Python divides by S before the inner loop (raises when
S = 0), and for each inner index j distinct from athlete_idx and k it
divides by S - s_k and by S - s_k - s_j; the call raises, modelled by none,
exactly when some iterated (k, j) hits such a zero denominator. -/
def bronze_probability (strengths : List ℚ) (athlete_idx : ℕ) : Option ℚ :=
  if ∃ k ∈ Finset.range strengths.length, k ≠ athlete_idx ∧
      (strengths.sum = 0 ∨
        ∃ j ∈ Finset.range strengths.length, j ≠ athlete_idx ∧ j ≠ k ∧
          (strengths.sum - strengths.getD k 0 = 0 ∨
            strengths.sum - strengths.getD k 0 - strengths.getD j 0 = 0))
  then none
  else some (bronzeFormula strengths athlete_idx)

/-- One iteration of the prediction loop of PlackettLuceModel.predict:
compute gold, then silver, then bronze for index ia.1; an exception in
any of them aborts the whole loop (Option bind). -/
def predictionRow (strengths : List ℚ) (ia : ℕ × AthleteStrength) :
    Option AthletePrediction :=
  (gold_probability strengths ia.1).bind fun g =>
    (silver_probability strengths ia.1).bind fun sl =>
      (bronze_probability strengths ia.1).map fun b =>
        { athlete_id := ia.2.athlete_id
          name := ia.2.name
          country := ia.2.country
          score := ia.2.score
          strength := ia.2.strength
          gold_prob := g
          silver_prob := sl
          bronze_prob := b }

/-- Run a fallible step over a list in order, stopping at the first
failure, as a Python for-loop with exceptions does. -/
def optionMap (f : α → Option β) : List α → Option (List β)
  | [] => some []
  | x :: xs => (f x).bind fun y => (optionMap f xs).map fun ys => y :: ys

/-- The prediction loop of PlackettLuceModel.predict over
enumerate(athletes); none when any division inside raises. -/
def predictionsOf (athletes : List AthleteStrength) :
    Option (List AthletePrediction) :=
  optionMap (predictionRow (athletes.map (·.strength))) athletes.enum

/-- The list predict returns when no division raises: one
AthletePrediction per index built from the three closed-form values. -/
def predictionsPure (athletes : List AthleteStrength) : List AthletePrediction :=
  athletes.enum.map fun ia =>
    { athlete_id := ia.2.athlete_id
      name := ia.2.name
      country := ia.2.country
      score := ia.2.score
      strength := ia.2.strength
      gold_prob := goldFormula (athletes.map (·.strength)) ia.1
      silver_prob := silverFormula (athletes.map (·.strength)) ia.1
      bronze_prob := bronzeFormula (athletes.map (·.strength)) ia.1 }

/-- PlackettLuceModel.predict: fewer than 3 athletes returns the empty
list before anything else runs; otherwise strengths are (re)calculated
and the per-index probabilities are produced by the loop, any
ZeroDivisionError escaping as none. -/
def predict (power : ℕ) (athletes : List AthleteStrength) :
    Option (List AthletePrediction) :=
  if athletes.length < 3 then some []
  else
    (calculate_strengths power athletes).bind fun as =>
      predictionsOf as

/-- The strength list predict works with: (score/max_score)^power per
athlete, in order. -/
def strengthsOf (power : ℕ) (athletes : List AthleteStrength) : List ℚ :=
  athletes.map fun a => (a.score / maxScore athletes) ^ power

/-! ## simulator.py embedding

The stochastic parts (Gumbel and Gaussian draws of the random module,
math.log) are threaded in as oracle parameters: nv t i is the combined
gumbel + optional extra noise drawn for athlete index i in trial t, and
L models math.log.  The claims settled against this model concern its
deterministic control flow only. -/

/-- The floor applied inside simulate_once before taking the log:
max(a.strength, 0.0001).  This is the only epsilon floor in the code. -/
def logFloor (strength : ℚ) : ℚ :=
  max strength (1/10000)

/-- Stable insertion into a list sorted descending by key: an element
with a key equal to existing ones is placed after them, matching the
stability of Python list.sort with key lambda x: -key(x). -/
def insertDescBy (key : α → ℚ) (x : α) : List α → List α
  | [] => [x]
  | y :: ys => if key x ≤ key y then y :: insertDescBy key x ys else x :: y :: ys

/-- Stable descending sort by a rational key; extensionally equal to
Python's stable sort with the negated key. -/
def sortDescBy (key : α → ℚ) (l : List α) : List α :=
  l.foldl (fun acc x => insertDescBy key x acc) []

/-- Result record of simulator.py SimulatedResult. -/
structure SimulatedResult where
  athlete_id : String
  name : String
  country : String
  exact_gold_prob : ℚ
  exact_silver_prob : ℚ
  exact_bronze_prob : ℚ
  sim_gold_prob : ℚ
  sim_silver_prob : ℚ
  sim_bronze_prob : ℚ
deriving DecidableEq

instance : Inhabited SimulatedResult := ⟨⟨"", "", "", 0, 0, 0, 0, 0, 0⟩⟩

/-- MonteCarloSimulator.simulate_once: noisy value
log(max(strength, 0.0001)) + gumbel (+ optional extra noise, both inside
nv), sort descending, return the top three athlete ids. -/
def simulate_once (L : ℚ → ℚ) (nv : ℕ → ℚ) (athletes : List AthleteStrength) :
    String × String × String :=
  let noisy := athletes.enum.map fun ia =>
    (L (logFloor ia.2.strength) + nv ia.1, ia.2.athlete_id)
  let sorted := sortDescBy (fun x => x.1) noisy
  ((sorted.getD 0 default).2, (sorted.getD 1 default).2, (sorted.getD 2 default).2)

/-- MonteCarloSimulator.simulate_competition: fewer than 3 athletes
returns the empty list before any strength calculation or sampling;
otherwise exact predictions are computed, num_simulations trials are
run, and per-athlete frequencies are reported next to the exact
probabilities.  none models a Python exception escaping. -/
def MC_simulate_competition (power numSims : ℕ) (L : ℚ → ℚ) (nv : ℕ → ℕ → ℚ)
    (athletes : List AthleteStrength) : Option (List SimulatedResult) :=
  if athletes.length < 3 then some []
  else
    match calculate_strengths power athletes with
    | none => none
    | some as =>
      match predict power as with
      | none => none
      | some exactPreds =>
        let trials := (List.range numSims).map fun t => simulate_once L (nv t) as
        some (as.map fun a =>
          let ex := ((exactPreds.filter
            fun p => p.athlete_id == a.athlete_id).getD 0 default)
          { athlete_id := a.athlete_id
            name := a.name
            country := a.country
            exact_gold_prob := ex.gold_prob
            exact_silver_prob := ex.silver_prob
            exact_bronze_prob := ex.bronze_prob
            sim_gold_prob := (trials.countP (fun r => r.1 == a.athlete_id) : ℚ) / numSims
            sim_silver_prob := (trials.countP (fun r => r.2.1 == a.athlete_id) : ℚ) / numSims
            sim_bronze_prob := (trials.countP (fun r => r.2.2 == a.athlete_id) : ℚ) / numSims })

/-! ## prediction/v3/predict.py embedding

The random draws are again oracle parameters: sampleMult aid is the
log-normal multiplier drawn for athlete aid at the start of a trial
(sample_strength_multiplier), noise c i the Gumbel draw for entry index
i of competition c, and L models math.log. -/

/-- One row of entries.json as consumed by the v3 simulator. -/
structure Entry where
  competition_id : String
  athlete_id : String
  score : ℚ
deriving DecidableEq

instance : Inhabited Entry := ⟨⟨"", "", 0⟩⟩

/-- v3 calculate_base_strength: 1000/max(score, 1) for world_ranking
scoring, max(score, 1) otherwise. -/
def calculate_base_strength (score : ℚ) (scoring_type : String) : ℚ :=
  if scoring_type = "world_ranking" then 1000 / max score 1
  else max score 1

/-- The per-trial multiplier dict of v3 run_simulation:
sample_strength_multiplier() for every athlete id appearing in the
entries, with the dict-lookup default 1.0 for anyone else
(athlete_multipliers.get(athlete_id, 1.0)). -/
def trialMultipliers (entries : List Entry) (sampleMult : String → ℚ) :
    String → ℚ :=
  fun aid => if aid ∈ entries.map (·.athlete_id) then sampleMult aid else 1

/-- The effective strengths computed inside v3 simulate_competition:
base strength times the athlete's uncertainty multiplier, per entry in
order. -/
def effectiveStrengths (entries : List Entry) (scoring_type : String)
    (mult : String → ℚ) : List (String × ℚ) :=
  entries.map fun e =>
    (e.athlete_id, calculate_base_strength e.score scoring_type * mult e.athlete_id)

/-- v3 simulate_competition.  Fewer than 3 entries: the athlete-id list
is padded with None up to length 3 and returned as the medal tuple (no
sampling).  Otherwise each entry gets performance
log(effective strength, floored at 0.0001 when nonpositive) + Gumbel
noise, the list is sorted descending, and the top three ids are the
medal tuple. -/
def V3simulate_competition (entries : List Entry) (scoring_type : String)
    (mult : String → ℚ) (L : ℚ → ℚ) (noise : ℕ → ℚ) :
    Option String × Option String × Option String :=
  if entries.length < 3 then
    let athletes := entries.map (fun e => some e.athlete_id) ++
      List.replicate (3 - entries.length) none
    (athletes.getD 0 none, athletes.getD 1 none, athletes.getD 2 none)
  else
    let performances := (effectiveStrengths entries scoring_type mult).enum.map
      fun ie =>
        let eff := if ie.2.2 ≤ 0 then 1/10000 else ie.2.2
        (ie.2.1, L eff + noise ie.1)
    let sorted := sortDescBy (fun x => x.2) performances
    (some (sorted.getD 0 default).1, some (sorted.getD 1 default).1,
      some (sorted.getD 2 default).1)

/-- Competition ids in first-occurrence order, as the insertion order of
the entries_by_comp dict built in v3 run_simulation. -/
def compsInOrder : List Entry → List String
  | [] => []
  | e :: es => e.competition_id ::
      (compsInOrder es).filter (· ≠ e.competition_id)

/-- The entry group entries_by_comp[c]: entries of competition c in
original order. -/
def entriesFor (entries : List Entry) (c : String) : List Entry :=
  entries.filter (·.competition_id = c)

/-- One trial of v3 run_simulation: the multipliers are sampled once,
before the loop over competitions, and every competition of the trial
is resolved with that same multiplier dict. -/
def runTrial (entries : List Entry) (scoring : String → String)
    (sampleMult : String → ℚ) (L : ℚ → ℚ) (noise : String → ℕ → ℚ) :
    List (String × (Option String × Option String × Option String)) :=
  (compsInOrder entries).map fun c =>
    (c, V3simulate_competition (entriesFor entries c) (scoring c)
      (trialMultipliers entries sampleMult) L (noise c))

/-- A concrete three-entrant field with positive distinct scores. -/
def demoField : List AthleteStrength :=
  [{ athlete_id := "1", name := "A", country := "NOR", score := 4, strength := 0 },
   { athlete_id := "2", name := "B", country := "NOR", score := 2, strength := 0 },
   { athlete_id := "3", name := "C", country := "SWE", score := 1, strength := 0 }]

/-- A field whose scores are all negative, so its maximum score is
negative. -/
def negField : List AthleteStrength :=
  [{ athlete_id := "1", name := "A", country := "NOR", score := -1, strength := 0 },
   { athlete_id := "2", name := "B", country := "NOR", score := -2, strength := 0 },
   { athlete_id := "3", name := "C", country := "SWE", score := -4, strength := 0 }]

/-- A field in which one entrant has a zero score. -/
def zeroScoreField : List AthleteStrength :=
  [{ athlete_id := "1", name := "A", country := "NOR", score := 100, strength := 0 },
   { athlete_id := "2", name := "B", country := "NOR", score := 0, strength := 0 },
   { athlete_id := "3", name := "C", country := "SWE", score := 50, strength := 0 }]

/-- A field with only two entrants. -/
def smallField : List AthleteStrength :=
  [{ athlete_id := "1", name := "A", country := "NOR", score := 4, strength := 0 },
   { athlete_id := "2", name := "B", country := "NOR", score := 2, strength := 0 }]

/-- A three-entrant field with distinct nonnegative scores whose last
score is zero. -/
def zeroTailField : List AthleteStrength :=
  [{ athlete_id := "1", name := "A", country := "NOR", score := 4, strength := 0 },
   { athlete_id := "2", name := "B", country := "NOR", score := 2, strength := 0 },
   { athlete_id := "3", name := "C", country := "SWE", score := 0, strength := 0 }]

/-- Concrete v3 entry list: athlete a enters competitions c1 and c2
(both with three entrants), competition c3 has two entrants, and
competition c4 has a single entrant. -/
def v3Entries : List Entry :=
  [⟨"c1", "a", 5⟩, ⟨"c1", "b", 3⟩, ⟨"c1", "d", 2⟩,
   ⟨"c2", "a", 7⟩, ⟨"c2", "e", 4⟩, ⟨"c2", "f", 1⟩,
   ⟨"c3", "g", 9⟩, ⟨"c3", "h", 8⟩,
   ⟨"c4", "k", 6⟩]

/-! ## Helper lemmas about indexed sums over a strength list -/

lemma sum_getD_range (l : List ℚ) :
    ∑ i ∈ Finset.range l.length, l.getD i 0 = l.sum := by
  induction l with
  | nil => simp
  | cons a t ih =>
    rw [List.length_cons, Finset.sum_range_succ']
    simp only [List.getD_cons_succ, List.getD_cons_zero, List.sum_cons]
    rw [ih]
    ring

lemma getD_pos {l : List ℚ} (hpos : ∀ x ∈ l, 0 < x) {i : ℕ} (hi : i < l.length) :
    0 < l.getD i 0 := by
  rw [List.getD_eq_getElem l 0 hi]
  exact hpos _ (l.getElem_mem hi)

lemma sum_ite_hole (f : ℕ → ℚ) {n k : ℕ} (hk : k < n) :
    ∑ i ∈ Finset.range n, (if k = i then 0 else f i)
      = (∑ i ∈ Finset.range n, f i) - f k := by
  have h : ∀ i ∈ Finset.range n, (if k = i then (0:ℚ) else f i)
      = f i - (if k = i then f i else 0) := by
    intro i _
    by_cases h : k = i <;> simp [h]
  rw [Finset.sum_congr rfl h, Finset.sum_sub_distrib, Finset.sum_ite_eq]
  simp [Finset.mem_range.mpr hk]

lemma sum_ite_hole2 (f : ℕ → ℚ) {n k j : ℕ} (hk : k < n) (hj : j < n)
    (hkj : k ≠ j) :
    ∑ i ∈ Finset.range n, (if k = i then 0 else if j = i then 0 else f i)
      = (∑ i ∈ Finset.range n, f i) - f k - f j := by
  have h : ∀ i ∈ Finset.range n, (if k = i then (0:ℚ) else if j = i then 0 else f i)
      = f i - (if k = i then f i else 0) - (if j = i then f i else 0) := by
    intro i _
    by_cases h1 : k = i
    · by_cases h2 : j = i
      · exact absurd (h1.trans h2.symm) hkj
      · simp [h1, h2]
    · by_cases h2 : j = i <;> simp [h1, h2]
  rw [Finset.sum_congr rfl h, Finset.sum_sub_distrib, Finset.sum_sub_distrib,
    Finset.sum_ite_eq, Finset.sum_ite_eq]
  simp [Finset.mem_range.mpr hk, Finset.mem_range.mpr hj]

lemma sum_ite_hole_mul (s : List ℚ) (c : ℚ) {k : ℕ} (hk : k < s.length) :
    ∑ i ∈ Finset.range s.length, (if k = i then 0 else c * s.getD i 0)
      = c * (s.sum - s.getD k 0) := by
  rw [sum_ite_hole (fun i => c * s.getD i 0) hk, ← Finset.mul_sum,
    sum_getD_range, mul_sub]

lemma sum_ite_hole2_mul (s : List ℚ) (c : ℚ) {k j : ℕ} (hk : k < s.length)
    (hj : j < s.length) (hkj : k ≠ j) :
    ∑ i ∈ Finset.range s.length,
        (if k = i then 0 else if j = i then 0 else c * s.getD i 0)
      = c * (s.sum - s.getD k 0 - s.getD j 0) := by
  rw [sum_ite_hole2 (fun i => c * s.getD i 0) hk hj hkj, ← Finset.mul_sum,
    sum_getD_range]
  ring

lemma sub_one_pos {s : List ℚ} (hpos : ∀ x ∈ s, 0 < x) {k : ℕ}
    (hk : k < s.length) (hlen : 2 ≤ s.length) :
    0 < s.sum - s.getD k 0 := by
  have h := sum_ite_hole (fun i => s.getD i 0) hk
  rw [sum_getD_range] at h
  rw [← h]
  refine Finset.sum_pos' ?_ ?_
  · intro i _
    by_cases h1 : k = i
    · simp [h1]
    · rw [if_neg h1]
      exact (getD_pos hpos (Finset.mem_range.mp ‹_›)).le
  · by_cases hk0 : k = 0
    · refine ⟨1, Finset.mem_range.mpr (by omega), ?_⟩
      rw [if_neg (by omega)]
      exact getD_pos hpos (by omega)
    · refine ⟨0, Finset.mem_range.mpr (by omega), ?_⟩
      rw [if_neg (by omega)]
      exact getD_pos hpos (by omega)

lemma sub_two_pos {s : List ℚ} (hpos : ∀ x ∈ s, 0 < x) {k j : ℕ}
    (hk : k < s.length) (hj : j < s.length) (hkj : k ≠ j)
    (hlen : 3 ≤ s.length) :
    0 < s.sum - s.getD k 0 - s.getD j 0 := by
  have h := sum_ite_hole2 (fun i => s.getD i 0) hk hj hkj
  rw [sum_getD_range] at h
  rw [← h]
  refine Finset.sum_pos' ?_ ?_
  · intro i hi
    by_cases h1 : k = i
    · simp [h1]
    · by_cases h2 : j = i
      · simp [h1, h2]
      · rw [if_neg h1, if_neg h2]
        exact (getD_pos hpos (Finset.mem_range.mp hi)).le
  · by_cases h0 : k ≠ 0 ∧ j ≠ 0
    · refine ⟨0, Finset.mem_range.mpr (by omega), ?_⟩
      rw [if_neg h0.1, if_neg h0.2]
      exact getD_pos hpos (by omega)
    · by_cases h1 : k ≠ 1 ∧ j ≠ 1
      · refine ⟨1, Finset.mem_range.mpr (by omega), ?_⟩
        rw [if_neg h1.1, if_neg h1.2]
        exact getD_pos hpos (by omega)
      · push_neg at h0 h1
        refine ⟨2, Finset.mem_range.mpr (by omega), ?_⟩
        rw [if_neg (by omega), if_neg (by omega)]
        exact getD_pos hpos (by omega)

lemma ite_zero_sum {c : Prop} [Decidable c] (f : ℕ → ℚ) (t : Finset ℕ) :
    (if c then 0 else ∑ j ∈ t, f j) = ∑ j ∈ t, if c then 0 else f j := by
  by_cases h : c <;> simp [h]

lemma gold_sum_eq_one {s : List ℚ} (hpos : ∀ x ∈ s, 0 < x) (hne : s ≠ []) :
    ∑ i ∈ Finset.range s.length, goldFormula s i = 1 := by
  have hS : 0 < s.sum := List.sum_pos s hpos hne
  unfold goldFormula
  rw [← Finset.sum_div, sum_getD_range, div_self hS.ne']

lemma silver_sum_eq_one {s : List ℚ} (hpos : ∀ x ∈ s, 0 < x)
    (hlen : 2 ≤ s.length) :
    ∑ i ∈ Finset.range s.length, silverFormula s i = 1 := by
  have hne : s ≠ [] := by
    intro h
    rw [h] at hlen
    simp at hlen
  have hS : 0 < s.sum := List.sum_pos s hpos hne
  unfold silverFormula
  rw [Finset.sum_comm]
  have hfix : ∀ k ∈ Finset.range s.length,
      (∑ i ∈ Finset.range s.length,
        if k = i then 0
        else (s.getD k 0 / s.sum) * (s.getD i 0 / (s.sum - s.getD k 0)))
      = s.getD k 0 / s.sum := by
    intro k hk
    have hk' := Finset.mem_range.mp hk
    have hT : 0 < s.sum - s.getD k 0 := sub_one_pos hpos hk' hlen
    have hpay : ∀ i ∈ Finset.range s.length,
        (if k = i then (0:ℚ)
          else (s.getD k 0 / s.sum) * (s.getD i 0 / (s.sum - s.getD k 0)))
        = (if k = i then 0
          else (s.getD k 0 / s.sum / (s.sum - s.getD k 0)) * s.getD i 0) := by
      intro i _
      by_cases h : k = i
      · simp [h]
      · rw [if_neg h, if_neg h]
        ring
    rw [Finset.sum_congr rfl hpay, sum_ite_hole_mul s _ hk',
      div_mul_cancel₀ _ hT.ne']
  rw [Finset.sum_congr rfl hfix, ← Finset.sum_div, sum_getD_range,
    div_self hS.ne']

lemma bronze_sum_eq_one {s : List ℚ} (hpos : ∀ x ∈ s, 0 < x)
    (hlen : 3 ≤ s.length) :
    ∑ i ∈ Finset.range s.length, bronzeFormula s i = 1 := by
  have hlen2 : 2 ≤ s.length := by omega
  have hne : s ≠ [] := by
    intro h
    rw [h] at hlen
    simp at hlen
  have hS : 0 < s.sum := List.sum_pos s hpos hne
  unfold bronzeFormula
  simp only [ite_zero_sum]
  rw [Finset.sum_comm]
  have hswap : ∀ k ∈ Finset.range s.length,
      (∑ i ∈ Finset.range s.length, ∑ j ∈ Finset.range s.length,
        if k = i then (0:ℚ) else if j = i ∨ j = k then 0
        else (s.getD k 0 / s.sum) * (s.getD j 0 / (s.sum - s.getD k 0)) *
          (s.getD i 0 / (s.sum - s.getD k 0 - s.getD j 0)))
      = s.getD k 0 / s.sum := by
    intro k hk
    have hk' := Finset.mem_range.mp hk
    have hT : 0 < s.sum - s.getD k 0 := sub_one_pos hpos hk' hlen2
    rw [Finset.sum_comm]
    have hinner : ∀ j ∈ Finset.range s.length,
        (∑ i ∈ Finset.range s.length,
          if k = i then (0:ℚ) else if j = i ∨ j = k then 0
          else (s.getD k 0 / s.sum) * (s.getD j 0 / (s.sum - s.getD k 0)) *
            (s.getD i 0 / (s.sum - s.getD k 0 - s.getD j 0)))
        = (if k = j then 0
          else (s.getD k 0 / s.sum) * (s.getD j 0 / (s.sum - s.getD k 0))) := by
      intro j hj
      have hj' := Finset.mem_range.mp hj
      by_cases hjk : j = k
      · rw [if_pos hjk.symm]
        refine Finset.sum_eq_zero ?_
        intro i _
        by_cases h1 : k = i
        · simp [h1]
        · rw [if_neg h1, if_pos (Or.inr hjk)]
      · have hkj : k ≠ j := fun h => hjk h.symm
        have hD : 0 < s.sum - s.getD k 0 - s.getD j 0 :=
          sub_two_pos hpos hk' hj' hkj hlen
        have hpay : ∀ i ∈ Finset.range s.length,
            (if k = i then (0:ℚ) else if j = i ∨ j = k then 0
              else (s.getD k 0 / s.sum) * (s.getD j 0 / (s.sum - s.getD k 0)) *
                (s.getD i 0 / (s.sum - s.getD k 0 - s.getD j 0)))
            = (if k = i then 0 else if j = i then 0
              else ((s.getD k 0 / s.sum) * (s.getD j 0 / (s.sum - s.getD k 0)) /
                  (s.sum - s.getD k 0 - s.getD j 0)) * s.getD i 0) := by
          intro i _
          by_cases h1 : k = i
          · simp [h1]
          · by_cases h2 : j = i
            · simp [h1, h2]
            · rw [if_neg h1, if_neg h1, if_neg h2,
                if_neg (by rw [not_or]; exact ⟨h2, hjk⟩)]
              ring
        rw [Finset.sum_congr rfl hpay, sum_ite_hole2_mul s _ hk' hj' hkj,
          div_mul_cancel₀ _ hD.ne', if_neg hkj]
    rw [Finset.sum_congr rfl hinner]
    have hpay2 : ∀ j ∈ Finset.range s.length,
        (if k = j then (0:ℚ)
          else (s.getD k 0 / s.sum) * (s.getD j 0 / (s.sum - s.getD k 0)))
        = (if k = j then 0
          else (s.getD k 0 / s.sum / (s.sum - s.getD k 0)) * s.getD j 0) := by
      intro j _
      by_cases h : k = j
      · simp [h]
      · rw [if_neg h, if_neg h]
        ring
    rw [Finset.sum_congr rfl hpay2, sum_ite_hole_mul s _ hk',
      div_mul_cancel₀ _ hT.ne']
  rw [Finset.sum_congr rfl hswap, ← Finset.sum_div, sum_getD_range,
    div_self hS.ne']

/-! ## Extraction lemmas for predict -/

lemma map_fst_enum (l : List α) : l.enum.map Prod.fst = List.range l.length := by
  apply List.ext_getElem
  · simp
  · intro i h1 h2
    simp

lemma sum_map_range (f : ℕ → ℚ) (n : ℕ) :
    ((List.range n).map f).sum = ∑ i ∈ Finset.range n, f i := by
  induction n with
  | zero => simp
  | succ m ih =>
    rw [List.range_succ, List.map_append, List.sum_append,
      Finset.sum_range_succ, ih]
    simp

lemma predictionsPure_map_gold (l : List AthleteStrength) :
    (predictionsPure l).map (·.gold_prob)
      = (List.range l.length).map (goldFormula (l.map (·.strength))) := by
  unfold predictionsPure
  rw [List.map_map]
  have h : ((fun p : AthletePrediction => p.gold_prob) ∘ fun ia : ℕ × AthleteStrength =>
      ({ athlete_id := ia.2.athlete_id, name := ia.2.name, country := ia.2.country
         score := ia.2.score, strength := ia.2.strength
         gold_prob := goldFormula (l.map (·.strength)) ia.1
         silver_prob := silverFormula (l.map (·.strength)) ia.1
         bronze_prob := bronzeFormula (l.map (·.strength)) ia.1 } : AthletePrediction))
      = (goldFormula (l.map (·.strength))) ∘ Prod.fst := rfl
  rw [h, ← List.map_map, map_fst_enum]

lemma predictionsPure_map_silver (l : List AthleteStrength) :
    (predictionsPure l).map (·.silver_prob)
      = (List.range l.length).map (silverFormula (l.map (·.strength))) := by
  unfold predictionsPure
  rw [List.map_map]
  have h : ((fun p : AthletePrediction => p.silver_prob) ∘ fun ia : ℕ × AthleteStrength =>
      ({ athlete_id := ia.2.athlete_id, name := ia.2.name, country := ia.2.country
         score := ia.2.score, strength := ia.2.strength
         gold_prob := goldFormula (l.map (·.strength)) ia.1
         silver_prob := silverFormula (l.map (·.strength)) ia.1
         bronze_prob := bronzeFormula (l.map (·.strength)) ia.1 } : AthletePrediction))
      = (silverFormula (l.map (·.strength))) ∘ Prod.fst := rfl
  rw [h, ← List.map_map, map_fst_enum]

lemma predictionsPure_map_bronze (l : List AthleteStrength) :
    (predictionsPure l).map (·.bronze_prob)
      = (List.range l.length).map (bronzeFormula (l.map (·.strength))) := by
  unfold predictionsPure
  rw [List.map_map]
  have h : ((fun p : AthletePrediction => p.bronze_prob) ∘ fun ia : ℕ × AthleteStrength =>
      ({ athlete_id := ia.2.athlete_id, name := ia.2.name, country := ia.2.country
         score := ia.2.score, strength := ia.2.strength
         gold_prob := goldFormula (l.map (·.strength)) ia.1
         silver_prob := silverFormula (l.map (·.strength)) ia.1
         bronze_prob := bronzeFormula (l.map (·.strength)) ia.1 } : AthletePrediction))
      = (bronzeFormula (l.map (·.strength))) ∘ Prod.fst := rfl
  rw [h, ← List.map_map, map_fst_enum]

lemma calculate_strengths_eq (p : ℕ) {athletes : List AthleteStrength}
    (hne : athletes ≠ []) (hmax : maxScore athletes ≠ 0) :
    calculate_strengths p athletes = some (athletes.map fun a =>
      { a with strength := (a.score / maxScore athletes) ^ p }) := by
  unfold calculate_strengths
  rw [if_neg (by simpa using hne), if_neg hmax]

lemma strengths_of_calculated (p : ℕ) (athletes : List AthleteStrength) :
    ((athletes.map fun a =>
      { a with strength := (a.score / maxScore athletes) ^ p }).map (·.strength))
      = strengthsOf p athletes := by
  rw [List.map_map]
  rfl

lemma optionMap_eq_some (f : α → Option β) (g : α → β) :
    ∀ l : List α, (∀ x ∈ l, f x = some (g x)) →
      optionMap f l = some (l.map g)
  | [], _ => rfl
  | x :: xs, h => by
    unfold optionMap
    rw [h x (List.mem_cons_self x xs),
      optionMap_eq_some f g xs (fun y hy => h y (List.mem_cons_of_mem x hy))]
    rfl

lemma optionMap_none (f : α → Option β) (l : List α) (x : α) (hx : x ∈ l)
    (hfx : f x = none) : optionMap f l = none := by
  induction l with
  | nil => cases hx
  | cons y ys ih =>
    unfold optionMap
    rcases List.mem_cons.mp hx with h | h
    · subst h
      rw [hfx]
      rfl
    · rcases hfy : f y with _ | v
      · rfl
      · rw [ih h]
        rfl

lemma predictionRow_none_of_bronze (s : List ℚ) (ia : ℕ × AthleteStrength)
    (hb : bronze_probability s ia.1 = none) : predictionRow s ia = none := by
  unfold predictionRow
  rcases hg : gold_probability s ia.1 with _ | g
  · rfl
  · rcases hsl : silver_probability s ia.1 with _ | sl
    · rfl
    · rw [hb]
      rfl

lemma predictionsOf_eq_pure {l : List AthleteStrength}
    (hlen : 3 ≤ l.length) (hpos : ∀ x ∈ l.map (·.strength), 0 < x) :
    predictionsOf l = some (predictionsPure l) := by
  have hslen : (l.map (·.strength)).length = l.length := by simp
  have hne : l.map (·.strength) ≠ [] := by
    intro h
    rw [h] at hslen
    simp at hslen
    omega
  have hS : 0 < (l.map (·.strength)).sum := List.sum_pos _ hpos hne
  unfold predictionsOf predictionsPure
  apply optionMap_eq_some
  rw [List.forall_mem_enum]
  intro i hi
  have hi2 : i < (l.map (·.strength)).length := by omega
  have hg : gold_probability (l.map (·.strength)) i
      = some (goldFormula (l.map (·.strength)) i) := by
    unfold gold_probability
    rw [if_neg hS.ne']
  have hsl : silver_probability (l.map (·.strength)) i
      = some (silverFormula (l.map (·.strength)) i) := by
    unfold silver_probability
    rw [if_neg ?_]
    rintro ⟨k, hk, _, hbad | hbad⟩
    · exact hS.ne' hbad
    · exact (sub_one_pos hpos (Finset.mem_range.mp hk) (by omega)).ne' hbad
  have hb : bronze_probability (l.map (·.strength)) i
      = some (bronzeFormula (l.map (·.strength)) i) := by
    unfold bronze_probability
    rw [if_neg ?_]
    rintro ⟨k, hk, _, hbad | ⟨j, hj, _, hjk, hbad | hbad⟩⟩
    · exact hS.ne' hbad
    · exact (sub_one_pos hpos (Finset.mem_range.mp hk) (by omega)).ne' hbad
    · exact (sub_two_pos hpos (Finset.mem_range.mp hk)
        (Finset.mem_range.mp hj) (Ne.symm hjk) (by omega)).ne' hbad
  unfold predictionRow
  rw [hg, hsl, hb]
  rfl

lemma predict_eq_some (p : ℕ) {athletes : List AthleteStrength}
    (hlen : 3 ≤ athletes.length) (hmax : maxScore athletes ≠ 0)
    (hpos : ∀ x ∈ strengthsOf p athletes, 0 < x) :
    predict p athletes = some (predictionsPure (athletes.map fun a =>
      { a with strength := (a.score / maxScore athletes) ^ p })) := by
  have hne : athletes ≠ [] := by
    intro h
    rw [h] at hlen
    simp at hlen
  unfold predict
  rw [if_neg (by omega), calculate_strengths_eq p hne hmax, Option.some_bind]
  apply predictionsOf_eq_pure
  · simpa using hlen
  · rw [strengths_of_calculated]
    exact hpos

/-- C1: for every field of n ≥ 3 entrants whose transformed strengths are
all positive, the exact probabilities returned by PlackettLuceModel.predict
have gold, silver and bronze columns each summing to exactly 1 in exact
rational arithmetic, hence within the claimed 1e-3 tolerance. -/
theorem C1_predict_column_sums (p : ℕ) (athletes : List AthleteStrength)
    (hlen : 3 ≤ athletes.length) (hmax : maxScore athletes ≠ 0)
    (hpos : ∀ x ∈ strengthsOf p athletes, 0 < x) :
    ∃ preds, predict p athletes = some preds ∧
      (preds.map (·.gold_prob)).sum = 1 ∧
      (preds.map (·.silver_prob)).sum = 1 ∧
      (preds.map (·.bronze_prob)).sum = 1 := by
  have hslen : (strengthsOf p athletes).length = athletes.length := by
    simp [strengthsOf]
  have hne : strengthsOf p athletes ≠ [] := by
    intro h
    rw [h] at hslen
    simp at hslen
    omega
  have hS : 0 < (strengthsOf p athletes).sum := List.sum_pos _ hpos hne
  refine ⟨_, predict_eq_some p hlen hmax hpos, ?_, ?_, ?_⟩
  · rw [predictionsPure_map_gold, strengths_of_calculated, sum_map_range,
      List.length_map, ← hslen]
    exact gold_sum_eq_one hpos hne
  · rw [predictionsPure_map_silver, strengths_of_calculated, sum_map_range,
      List.length_map, ← hslen]
    exact silver_sum_eq_one hpos (by omega)
  · rw [predictionsPure_map_bronze, strengths_of_calculated, sum_map_range,
      List.length_map, ← hslen]
    exact bronze_sum_eq_one hpos (by omega)

/-- C1 witness: the column sums at a concrete positive-strength field. -/
theorem C1_witness :
    3 ≤ demoField.length ∧ maxScore demoField ≠ 0 ∧
      (∀ x ∈ strengthsOf 2 demoField, 0 < x) ∧
      ∃ preds, predict 2 demoField = some preds ∧
        (preds.map (·.gold_prob)).sum = 1 ∧
        (preds.map (·.silver_prob)).sum = 1 ∧
        (preds.map (·.bronze_prob)).sum = 1 :=
  ⟨by decide, by norm_num [maxScore, demoField, max_def],
    by norm_num [strengthsOf, demoField, maxScore, max_def],
    C1_predict_column_sums 2 demoField (by decide)
      (by norm_num [maxScore, demoField, max_def])
      (by norm_num [strengthsOf, demoField, maxScore, max_def])⟩

lemma predictionsPure_getD (l : List AthleteStrength) {i : ℕ}
    (hi : i < l.length) :
    (predictionsPure l).getD i default =
      { athlete_id := l[i].athlete_id
        name := l[i].name
        country := l[i].country
        score := l[i].score
        strength := l[i].strength
        gold_prob := goldFormula (l.map (·.strength)) i
        silver_prob := silverFormula (l.map (·.strength)) i
        bronze_prob := bronzeFormula (l.map (·.strength)) i } := by
  have hlen : i < (predictionsPure l).length := by
    unfold predictionsPure
    simpa using hi
  rw [List.getD_eq_getElem _ _ hlen]
  unfold predictionsPure
  simp

lemma sum_erase_eq_ite (s : Finset ℕ) (a : ℕ) (g : ℕ → ℚ) :
    ∑ k ∈ s.erase a, g k = ∑ k ∈ s, if k = a then 0 else g k := by
  rw [← Finset.filter_ne', Finset.sum_filter]
  apply Finset.sum_congr rfl
  intro k _
  by_cases h : k = a <;> simp [h]

lemma bronze_erase_form (s : List ℚ) (i : ℕ) :
    bronzeFormula s i
      = ∑ k ∈ (Finset.range s.length).erase i,
          ∑ j ∈ ((Finset.range s.length).erase i).erase k,
            (s.getD k 0 / s.sum) * (s.getD j 0 / (s.sum - s.getD k 0)) *
              (s.getD i 0 / (s.sum - s.getD k 0 - s.getD j 0)) := by
  unfold bronzeFormula
  rw [sum_erase_eq_ite (Finset.range s.length) i]
  apply Finset.sum_congr rfl
  intro k _
  by_cases hk : k = i
  · simp [hk]
  · rw [if_neg hk, if_neg hk,
      sum_erase_eq_ite ((Finset.range s.length).erase i) k,
      sum_erase_eq_ite (Finset.range s.length) i]
    apply Finset.sum_congr rfl
    intro j _
    by_cases h1 : j = i
    · simp [h1]
    · by_cases h2 : j = k <;> simp [h1, h2]

/-- C3: for a valid field, the gold probability predict reports for
entrant i is strength i divided by the total strength. -/
theorem C3_gold_is_share_of_total (p : ℕ) (athletes : List AthleteStrength)
    (i : ℕ) (hlen : 3 ≤ athletes.length) (hmax : maxScore athletes ≠ 0)
    (hpos : ∀ x ∈ strengthsOf p athletes, 0 < x) (hi : i < athletes.length) :
    ∃ preds, predict p athletes = some preds ∧
      (preds.getD i default).gold_prob
        = (strengthsOf p athletes).getD i 0 / (strengthsOf p athletes).sum := by
  refine ⟨_, predict_eq_some p hlen hmax hpos, ?_⟩
  have hXi : i < (athletes.map fun a =>
      { a with strength := (a.score / maxScore athletes) ^ p }).length := by
    simpa using hi
  rw [predictionsPure_getD _ hXi, strengths_of_calculated]
  rfl

/-- C3 witness at a concrete field. -/
theorem C3_witness :
    3 ≤ demoField.length ∧ maxScore demoField ≠ 0 ∧
      (∀ x ∈ strengthsOf 2 demoField, 0 < x) ∧ 0 < demoField.length ∧
      ∃ preds, predict 2 demoField = some preds ∧
        (preds.getD 0 default).gold_prob
          = (strengthsOf 2 demoField).getD 0 0 / (strengthsOf 2 demoField).sum :=
  ⟨by decide, by norm_num [maxScore, demoField, max_def],
    by norm_num [strengthsOf, demoField, maxScore, max_def], by decide,
    C3_gold_is_share_of_total 2 demoField 0 (by decide)
      (by norm_num [maxScore, demoField, max_def])
      (by norm_num [strengthsOf, demoField, maxScore, max_def]) (by decide)⟩

/-- C4: for a valid field, the bronze probability predict reports for
entrant i is the double marginalization over the first two places:
sum over k not i, then j not in {i, k}, of
(s k / S) (s j / (S - s k)) (s i / (S - s k - s j)). -/
theorem C4_bronze_double_marginalization (p : ℕ)
    (athletes : List AthleteStrength) (i : ℕ) (hlen : 3 ≤ athletes.length)
    (hmax : maxScore athletes ≠ 0)
    (hpos : ∀ x ∈ strengthsOf p athletes, 0 < x)
    (hi : i < athletes.length) :
    ∃ preds, predict p athletes = some preds ∧
      (preds.getD i default).bronze_prob
        = ∑ k ∈ (Finset.range (strengthsOf p athletes).length).erase i,
            ∑ j ∈ ((Finset.range (strengthsOf p athletes).length).erase i).erase k,
              ((strengthsOf p athletes).getD k 0 / (strengthsOf p athletes).sum) *
                ((strengthsOf p athletes).getD j 0 /
                  ((strengthsOf p athletes).sum - (strengthsOf p athletes).getD k 0)) *
                ((strengthsOf p athletes).getD i 0 /
                  ((strengthsOf p athletes).sum - (strengthsOf p athletes).getD k 0
                    - (strengthsOf p athletes).getD j 0)) := by
  refine ⟨_, predict_eq_some p hlen hmax hpos, ?_⟩
  have hXi : i < (athletes.map fun a =>
      { a with strength := (a.score / maxScore athletes) ^ p }).length := by
    simpa using hi
  rw [predictionsPure_getD _ hXi, strengths_of_calculated]
  exact bronze_erase_form _ i

/-- C4 witness at a concrete field. -/
theorem C4_witness :
    3 ≤ demoField.length ∧ maxScore demoField ≠ 0 ∧
      (∀ x ∈ strengthsOf 2 demoField, 0 < x) ∧ 1 < demoField.length ∧
      ∃ preds, predict 2 demoField = some preds ∧
        (preds.getD 1 default).bronze_prob
          = ∑ k ∈ (Finset.range (strengthsOf 2 demoField).length).erase 1,
              ∑ j ∈ ((Finset.range (strengthsOf 2 demoField).length).erase 1).erase k,
                ((strengthsOf 2 demoField).getD k 0 / (strengthsOf 2 demoField).sum) *
                  ((strengthsOf 2 demoField).getD j 0 /
                    ((strengthsOf 2 demoField).sum - (strengthsOf 2 demoField).getD k 0)) *
                  ((strengthsOf 2 demoField).getD 1 0 /
                    ((strengthsOf 2 demoField).sum - (strengthsOf 2 demoField).getD k 0
                      - (strengthsOf 2 demoField).getD j 0)) :=
  ⟨by decide, by norm_num [maxScore, demoField, max_def],
    by norm_num [strengthsOf, demoField, maxScore, max_def], by decide,
    C4_bronze_double_marginalization 2 demoField 1 (by decide)
      (by norm_num [maxScore, demoField, max_def])
      (by norm_num [strengthsOf, demoField, maxScore, max_def]) (by decide)⟩

/-! ## Properties of maxScore -/

lemma init_le_foldl_max (l : List AthleteStrength) (x : ℚ) :
    x ≤ l.foldl (fun m b => max m b.score) x := by
  induction l generalizing x with
  | nil => simp
  | cons b t ih => exact le_trans (le_max_left x b.score) (ih _)

lemma mem_le_foldl_max (l : List AthleteStrength) (x : ℚ)
    {a : AthleteStrength} (ha : a ∈ l) :
    a.score ≤ l.foldl (fun m b => max m b.score) x := by
  induction l generalizing x with
  | nil => cases ha
  | cons b t ih =>
    rcases List.mem_cons.mp ha with h | h
    · subst h
      exact le_trans (le_max_right x a.score) (init_le_foldl_max t _)
    · exact ih _ h

lemma le_maxScore {athletes : List AthleteStrength} {a : AthleteStrength}
    (ha : a ∈ athletes) : a.score ≤ maxScore athletes := by
  cases athletes with
  | nil => cases ha
  | cons b t =>
    rcases List.mem_cons.mp ha with h | h
    · subst h
      exact init_le_foldl_max t a.score
    · exact mem_le_foldl_max t b.score h

lemma foldl_max_mem (l : List AthleteStrength) (x : ℚ) :
    l.foldl (fun m b => max m b.score) x = x ∨
      ∃ a ∈ l, l.foldl (fun m b => max m b.score) x = a.score := by
  induction l generalizing x with
  | nil => left; rfl
  | cons b t ih =>
    rcases ih (max x b.score) with h | ⟨a, ha, hh⟩
    · rcases max_cases x b.score with ⟨hm, _⟩ | ⟨hm, _⟩
      · left
        rw [List.foldl_cons, h, hm]
      · right
        exact ⟨b, List.mem_cons_self b t, by rw [List.foldl_cons, h, hm]⟩
    · right
      exact ⟨a, List.mem_cons_of_mem b ha, by rw [List.foldl_cons]; exact hh⟩

lemma maxScore_mem {athletes : List AthleteStrength} (hne : athletes ≠ []) :
    ∃ a ∈ athletes, maxScore athletes = a.score := by
  cases athletes with
  | nil => exact absurd rfl hne
  | cons b t =>
    unfold maxScore
    rcases foldl_max_mem t b.score with h | ⟨a, ha, hh⟩
    · exact ⟨b, List.mem_cons_self b t, h⟩
    · exact ⟨a, List.mem_cons_of_mem b ha, hh⟩

lemma predictionsPure_length (l : List AthleteStrength) :
    (predictionsPure l).length = l.length := by
  unfold predictionsPure
  simp

/-! ## C5: behaviour on fields with nonpositive maximum score -/

/-- C5 counterexample: negField has a negative (hence nonpositive)
maximum score, yet its total transformed strength is positive and
predict produces a full three-entry distribution instead of failing;
and no DegenerateFieldError type exists anywhere in the code. -/
theorem C5_counterexample :
    maxScore negField ≤ 0 ∧ 0 < (strengthsOf 2 negField).sum ∧
      predict 2 negField
        = some (predictionsPure (negField.map fun a =>
            { a with strength := (a.score / maxScore negField) ^ 2 })) ∧
      (predictionsPure (negField.map fun a =>
          { a with strength := (a.score / maxScore negField) ^ 2 })).length = 3 := by
  have hmax : maxScore negField = -1 := by
    norm_num [maxScore, negField, max_def]
  have hstr : strengthsOf 2 negField = [1, 4, 16] := by
    unfold strengthsOf
    simp only [hmax]
    norm_num [negField]
  have hpos : ∀ x ∈ strengthsOf 2 negField, 0 < x := by
    rw [hstr]
    norm_num
  refine ⟨by rw [hmax]; norm_num, by rw [hstr]; norm_num, ?_, ?_⟩
  · exact predict_eq_some 2 (by decide) (by rw [hmax]; norm_num) hpos
  · rw [predictionsPure_length]
    simp [negField]

/-- C5 amended: with the default power 2 and n ≥ 3 entrants, a total
strength ≤ 0 can only arise from a zero maximum score, in which case
the strength transform fails with an unhandled ZeroDivisionError (there
is no DegenerateFieldError in the code) and no distribution is
produced; a negative maximum score instead yields strengths ≥ 1,
positive total strength, and a full distribution. -/
theorem C5_nonpositive_max_amended (athletes : List AthleteStrength)
    (hlen : 3 ≤ athletes.length) :
    (maxScore athletes = 0 → predict 2 athletes = none) ∧
    (maxScore athletes < 0 → 0 < (strengthsOf 2 athletes).sum ∧
      ∃ preds, predict 2 athletes = some preds ∧
        preds.length = athletes.length) := by
  have hne : athletes ≠ [] := by
    intro h
    rw [h] at hlen
    simp at hlen
  constructor
  · intro hmax
    unfold predict
    rw [if_neg (by omega)]
    unfold calculate_strengths
    rw [if_neg (by simpa using hne), if_pos hmax]
    rfl
  · intro hmax
    have hpos : ∀ x ∈ strengthsOf 2 athletes, 0 < x := by
      intro x hx
      rcases List.mem_map.mp hx with ⟨a, ha, rfl⟩
      have hle : a.score ≤ maxScore athletes := le_maxScore ha
      have h1 : (1:ℚ) ≤ a.score / maxScore athletes := by
        have := div_le_div_of_nonpos_of_le hmax.le hle
        rwa [div_self hmax.ne] at this
      calc (0:ℚ) < 1 := one_pos
        _ ≤ (a.score / maxScore athletes) ^ 2 := one_le_pow₀ h1
    have hneS : strengthsOf 2 athletes ≠ [] := by
      unfold strengthsOf
      simpa using hne
    have hS : 0 < (strengthsOf 2 athletes).sum := List.sum_pos _ hpos hneS
    refine ⟨hS, _, predict_eq_some 2 hlen hmax.ne hpos, ?_⟩
    rw [predictionsPure_length]
    simp

/-- C5 amended witness: instantiation at negField. -/
theorem C5_amended_witness :
    3 ≤ negField.length ∧
      ((maxScore negField = 0 → predict 2 negField = none) ∧
       (maxScore negField < 0 → 0 < (strengthsOf 2 negField).sum ∧
         ∃ preds, predict 2 negField = some preds ∧
           preds.length = negField.length)) :=
  ⟨by decide, C5_nonpositive_max_amended negField (by decide)⟩

/-! ## C6: fields with fewer than 3 entrants -/

/-- C6: with fewer than 3 entrants both the exact engine's predict and
the Monte Carlo simulator's simulate_competition return an empty result
(some [], i.e. no exception) and no medal distribution. -/
theorem C6_short_field_returns_empty (power numSims : ℕ) (L : ℚ → ℚ)
    (nv : ℕ → ℕ → ℚ) (athletes : List AthleteStrength)
    (h : athletes.length < 3) :
    predict power athletes = some [] ∧
      MC_simulate_competition power numSims L nv athletes = some [] := by
  constructor
  · unfold predict
    rw [if_pos h]
  · unfold MC_simulate_competition
    rw [if_pos h]

/-- C6 witness: a concrete two-entrant field. -/
theorem C6_witness :
    smallField.length < 3 ∧
      (predict 2 smallField = some [] ∧
        MC_simulate_competition 2 5 id (fun _ _ => 0) smallField = some []) :=
  ⟨by decide, C6_short_field_returns_empty 2 5 id (fun _ _ => 0) smallField
    (by decide)⟩

/-! ## C7: no epsilon floor in the strength transform -/

/-- C7 counterexample: calculate_strengths maps the zero-scored entrant
of zeroScoreField to strength exactly 0, so transformed strengths are
NOT floored at a positive epsilon and are not all strictly positive. -/
theorem C7_counterexample :
    (((calculate_strengths 2 zeroScoreField).getD []).getD 1 default).strength
        = 0 ∧
      ¬ (∀ a ∈ (calculate_strengths 2 zeroScoreField).getD [],
          0 < a.strength) := by
  have hcal : calculate_strengths 2 zeroScoreField
      = some [⟨"1", "A", "NOR", 100, 1⟩, ⟨"2", "B", "NOR", 0, 0⟩,
              ⟨"3", "C", "SWE", 50, 1/4⟩] := by
    norm_num [calculate_strengths, zeroScoreField, maxScore, max_def]
  rw [hcal]
  constructor
  · simp
  · intro hall
    have hb : (⟨"2", "B", "NOR", 0, 0⟩ : AthleteStrength)
        ∈ (some [(⟨"1", "A", "NOR", 100, 1⟩ : AthleteStrength),
            ⟨"2", "B", "NOR", 0, 0⟩, ⟨"3", "C", "SWE", 50, 1/4⟩]).getD [] := by
      simp
    have := hall _ hb
    simp at this

/-- C7 amended: the strength transform does not floor strengths (a zero
relative score yields strength exactly 0); with the default even power
strengths are merely nonnegative, and strict positivity before the log
is instead enforced in the simulator by flooring at 0.0001 via
max(strength, 0.0001). -/
theorem C7_no_floor_in_transform_amended (athletes : List AthleteStrength) :
    (∀ a ∈ (calculate_strengths 2 athletes).getD [], 0 ≤ a.strength) ∧
    (∀ s : ℚ, 0 < logFloor s) := by
  constructor
  · intro a ha
    unfold calculate_strengths at ha
    by_cases he : athletes.isEmpty
    · rw [if_pos he] at ha
      simp at ha
    · rw [if_neg he] at ha
      by_cases hm : maxScore athletes = 0
      · rw [if_pos hm] at ha
        simp at ha
      · rw [if_neg hm] at ha
        simp only [Option.getD_some] at ha
        rcases List.mem_map.mp ha with ⟨b, _, rfl⟩
        exact sq_nonneg _
  · intro s
    unfold logFloor
    exact lt_of_lt_of_le (by norm_num) (le_max_right s (1/10000))

/-! ## C8: monotonicity of the top gold probability in the power -/

lemma strengthsOf_length (p : ℕ) (athletes : List AthleteStrength) :
    (strengthsOf p athletes).length = athletes.length := by
  unfold strengthsOf
  simp

lemma strengthsOf_getD (p : ℕ) (athletes : List AthleteStrength) {j : ℕ}
    (hj : j < athletes.length) :
    (strengthsOf p athletes).getD j 0
      = ((athletes.getD j default).score / maxScore athletes) ^ p := by
  unfold strengthsOf
  rw [List.getD_eq_getElem _ _ (by simpa using hj), List.getElem_map,
    List.getD_eq_getElem _ _ hj]

lemma strengthsOf_sum (p : ℕ) (athletes : List AthleteStrength) :
    (strengthsOf p athletes).sum
      = ∑ j ∈ Finset.range athletes.length,
          ((athletes.getD j default).score / maxScore athletes) ^ p := by
  rw [← sum_getD_range (strengthsOf p athletes), strengthsOf_length]
  refine Finset.sum_congr rfl ?_
  intro j hj
  exact strengthsOf_getD p athletes (Finset.mem_range.mp hj)

/-- C8 counterexample: zeroTailField has distinct nonnegative scores
(4, 2, 0) and three entrants, squarely inside the claim, yet predict
raises ZeroDivisionError for both powers 1 and 2 (bronze for the
zero-strength entrant divides by S - s_0 - s_1 = 0), so no gold
probability is produced at all, let alone a strictly increased one. -/
theorem C8_counterexample :
    zeroTailField.map (·.score) = [4, 2, 0] ∧ 3 ≤ zeroTailField.length ∧
      predict 1 zeroTailField = none ∧ predict 2 zeroTailField = none := by
  have hcal1 : calculate_strengths 1 zeroTailField
      = some [⟨"1", "A", "NOR", 4, 1⟩, ⟨"2", "B", "NOR", 2, 1/2⟩,
              ⟨"3", "C", "SWE", 0, 0⟩] := by
    norm_num [calculate_strengths, zeroTailField, maxScore, max_def]
  have hcal2 : calculate_strengths 2 zeroTailField
      = some [⟨"1", "A", "NOR", 4, 1⟩, ⟨"2", "B", "NOR", 2, 1/4⟩,
              ⟨"3", "C", "SWE", 0, 0⟩] := by
    norm_num [calculate_strengths, zeroTailField, maxScore, max_def]
  have hb1 : bronze_probability [1, 1/2, 0] 2 = none := by
    unfold bronze_probability
    rw [if_pos ⟨0, by norm_num, by norm_num, Or.inr
      ⟨1, by norm_num, by norm_num, by norm_num, Or.inr (by norm_num)⟩⟩]
  have hb2 : bronze_probability [1, 1/4, 0] 2 = none := by
    unfold bronze_probability
    rw [if_pos ⟨0, by norm_num, by norm_num, Or.inr
      ⟨1, by norm_num, by norm_num, by norm_num, Or.inr (by norm_num)⟩⟩]
  refine ⟨by norm_num [zeroTailField], by norm_num [zeroTailField], ?_, ?_⟩
  · unfold predict
    rw [if_neg (by norm_num [zeroTailField]), hcal1, Option.some_bind]
    unfold predictionsOf
    refine optionMap_none _ _ (2, ⟨"3", "C", "SWE", 0, 0⟩) ?_ ?_
    · decide
    · have hmapeq : (([⟨"1", "A", "NOR", 4, 1⟩, ⟨"2", "B", "NOR", 2, 1/2⟩,
          ⟨"3", "C", "SWE", 0, 0⟩] : List AthleteStrength).map (·.strength))
          = [1, 1/2, 0] := rfl
      rw [hmapeq]
      exact predictionRow_none_of_bronze _ _ hb1
  · unfold predict
    rw [if_neg (by norm_num [zeroTailField]), hcal2, Option.some_bind]
    unfold predictionsOf
    refine optionMap_none _ _ (2, ⟨"3", "C", "SWE", 0, 0⟩) ?_ ?_
    · decide
    · have hmapeq : (([⟨"1", "A", "NOR", 4, 1⟩, ⟨"2", "B", "NOR", 2, 1/4⟩,
          ⟨"3", "C", "SWE", 0, 0⟩] : List AthleteStrength).map (·.strength))
          = [1, 1/4, 0] := rfl
      rw [hmapeq]
      exact predictionRow_none_of_bronze _ _ hb2

/-- C8 amended: for a field of n ≥ 3 entrants with distinct strictly
positive scores, raising the strength-power exponent strictly increases
the gold probability predict assigns to the entrant with the highest
score.  (With a zero score admitted, predict itself raises
ZeroDivisionError in _bronze_probability on a three-entrant field, so
positivity is the amendment the counterexample forces.) -/
theorem C8_power_raises_top_gold (p q : ℕ) (athletes : List AthleteStrength)
    (i : ℕ) (hpq : p < q) (hlen : 3 ≤ athletes.length)
    (hi : i < athletes.length) (hppos : ∀ a ∈ athletes, 0 < a.score)
    (hdist : ∀ j k, j < athletes.length → k < athletes.length → j ≠ k →
      (athletes.getD j default).score ≠ (athletes.getD k default).score)
    (htop : ∀ j, j < athletes.length →
      (athletes.getD j default).score ≤ (athletes.getD i default).score) :
    ∃ pp pq2, predict p athletes = some pp ∧ predict q athletes = some pq2 ∧
      (pp.getD i default).gold_prob < (pq2.getD i default).gold_prob := by
  have hne : athletes ≠ [] := by
    intro h
    rw [h] at hlen
    simp at hlen
  have hgetD_mem : ∀ j, j < athletes.length → athletes.getD j default ∈ athletes := by
    intro j hj
    rw [List.getD_eq_getElem _ _ hj]
    exact List.getElem_mem hj
  have hscorei_pos : 0 < (athletes.getD i default).score :=
    hppos _ (hgetD_mem i hi)
  -- the maximum score is the top entrant's score
  have hmaxeq : maxScore athletes = (athletes.getD i default).score := by
    obtain ⟨a, ha, haeq⟩ := maxScore_mem hne
    obtain ⟨j, hj, hja⟩ := List.mem_iff_getElem.mp ha
    have h1 : maxScore athletes ≤ (athletes.getD i default).score := by
      rw [haeq, ← hja, ← List.getD_eq_getElem _ default hj]
      exact htop j hj
    exact le_antisymm h1 (le_maxScore (hgetD_mem i hi))
  have hmaxpos : 0 < maxScore athletes := hmaxeq ▸ hscorei_pos
  -- relative scores lie in (0, 1], equal 1 exactly at the top entrant
  have hr_pos : ∀ j, j < athletes.length →
      0 < (athletes.getD j default).score / maxScore athletes := by
    intro j hj
    exact div_pos (hppos _ (hgetD_mem j hj)) hmaxpos
  have hr_le_one : ∀ j, j < athletes.length →
      (athletes.getD j default).score / maxScore athletes ≤ 1 := by
    intro j hj
    rw [div_le_one hmaxpos, hmaxeq]
    exact htop j hj
  have hr_lt_one : ∀ j, j < athletes.length → j ≠ i →
      (athletes.getD j default).score / maxScore athletes < 1 := by
    intro j hj hji
    rw [div_lt_one hmaxpos, hmaxeq]
    exact lt_of_le_of_ne (htop j hj) (hdist j i hj hi hji)
  have hri : (athletes.getD i default).score / maxScore athletes = 1 := by
    rw [hmaxeq]
    exact div_self hscorei_pos.ne'
  -- positivity of all transformed strengths and their sums
  have hstr : ∀ m : ℕ, ∀ x ∈ strengthsOf m athletes, 0 < x := by
    intro m x hx
    rcases List.mem_map.mp hx with ⟨a, ha, rfl⟩
    exact pow_pos (div_pos (hppos a ha) hmaxpos) m
  have hSpos : ∀ m : ℕ, 0 < (strengthsOf m athletes).sum := by
    intro m
    rw [strengthsOf_sum]
    refine Finset.sum_pos' ?_ ⟨i, Finset.mem_range.mpr hi, ?_⟩
    · intro j hj
      exact (pow_pos (hr_pos j (Finset.mem_range.mp hj)) m).le
    · rw [hri, one_pow]
      norm_num
  -- an entrant strictly between 0 and the maximum exists
  have hpair0 : ∃ a, a < athletes.length ∧ a ≠ i := by
    by_cases h0 : i = 0
    · exact ⟨1, by omega, by omega⟩
    · exact ⟨0, by omega, by omega⟩
  -- the smaller power gives the strictly larger strength sum
  have hmain : ∑ j ∈ Finset.range athletes.length,
        ((athletes.getD j default).score / maxScore athletes) ^ q
      < ∑ j ∈ Finset.range athletes.length,
        ((athletes.getD j default).score / maxScore athletes) ^ p := by
    obtain ⟨j2, hj2, hj2i⟩ := hpair0
    refine Finset.sum_lt_sum ?_ ⟨j2, Finset.mem_range.mpr hj2, ?_⟩
    · intro j hj
      exact pow_le_pow_of_le_one (hr_pos j (Finset.mem_range.mp hj)).le
        (hr_le_one j (Finset.mem_range.mp hj)) hpq.le
    · exact pow_lt_pow_right_of_lt_one₀ (hr_pos j2 hj2)
        (hr_lt_one j2 hj2 hj2i) hpq
  refine ⟨_, _, predict_eq_some p hlen hmaxpos.ne' (hstr p),
    predict_eq_some q hlen hmaxpos.ne' (hstr q), ?_⟩
  have hXip : i < (athletes.map fun a =>
      { a with strength := (a.score / maxScore athletes) ^ p }).length := by
    simpa using hi
  have hXiq : i < (athletes.map fun a =>
      { a with strength := (a.score / maxScore athletes) ^ q }).length := by
    simpa using hi
  rw [predictionsPure_getD _ hXip, predictionsPure_getD _ hXiq]
  simp only []
  rw [strengths_of_calculated, strengths_of_calculated]
  unfold goldFormula
  rw [strengthsOf_getD p athletes hi, strengthsOf_getD q athletes hi, hri,
    one_pow, one_pow, strengthsOf_sum, strengthsOf_sum]
  refine one_div_lt_one_div_of_lt ?_ hmain
  have hq := hSpos q
  rwa [strengthsOf_sum] at hq

/-- C8 witness at a concrete field with distinct positive scores. -/
theorem C8_witness :
    1 < 2 ∧ 3 ≤ demoField.length ∧ 0 < demoField.length ∧
      (∀ a ∈ demoField, 0 < a.score) ∧
      ∃ pp pq2, predict 1 demoField = some pp ∧ predict 2 demoField = some pq2 ∧
        (pp.getD 0 default).gold_prob < (pq2.getD 0 default).gold_prob :=
  ⟨by decide, by decide, by decide, by norm_num [demoField],
    C8_power_raises_top_gold 1 2 demoField 0 (by decide) (by decide) (by decide)
      (by norm_num [demoField])
      (by
        intro j k hj hk hjk
        have hj3 : j < 3 := by simpa [demoField] using hj
        have hk3 : k < 3 := by simpa [demoField] using hk
        interval_cases j <;> interval_cases k <;> simp_all [demoField])
      (by
        intro j hj
        have hj3 : j < 3 := by simpa [demoField] using hj
        interval_cases j <;> norm_num [demoField])⟩

/-! ## C9: per-trial uncertainty multipliers are shared across fields -/

/-- C9: within one trial of the v3 simulator, the uncertainty multiplier
dict is built from the trial's samples alone, before any competition is
resolved, and an athlete entering several competitions of that trial has
exactly the same multiplier applied to the base strength in every one of
them. -/
theorem C9_multiplier_shared_across_fields (entries : List Entry)
    (scoring : String → String) (sampleMult : String → ℚ) (L : ℚ → ℚ)
    (noise : String → ℕ → ℚ) (c1 c2 : String) (e1 e2 : Entry)
    (hc1 : c1 ∈ compsInOrder entries) (hc2 : c2 ∈ compsInOrder entries)
    (he1 : e1 ∈ entriesFor entries c1) (he2 : e2 ∈ entriesFor entries c2)
    (haid : e1.athlete_id = e2.athlete_id) :
    ∃ m : ℚ, m = sampleMult e1.athlete_id ∧
      trialMultipliers entries sampleMult e1.athlete_id = m ∧
      trialMultipliers entries sampleMult e2.athlete_id = m ∧
      (e1.athlete_id, calculate_base_strength e1.score (scoring c1) * m)
        ∈ effectiveStrengths (entriesFor entries c1) (scoring c1)
            (trialMultipliers entries sampleMult) ∧
      (e2.athlete_id, calculate_base_strength e2.score (scoring c2) * m)
        ∈ effectiveStrengths (entriesFor entries c2) (scoring c2)
            (trialMultipliers entries sampleMult) ∧
      (c1, V3simulate_competition (entriesFor entries c1) (scoring c1)
          (trialMultipliers entries sampleMult) L (noise c1))
        ∈ runTrial entries scoring sampleMult L noise ∧
      (c2, V3simulate_competition (entriesFor entries c2) (scoring c2)
          (trialMultipliers entries sampleMult) L (noise c2))
        ∈ runTrial entries scoring sampleMult L noise := by
  have he1m : e1 ∈ entries := (List.mem_filter.mp he1).1
  have hmem1 : e1.athlete_id ∈ entries.map (·.athlete_id) :=
    List.mem_map.mpr ⟨e1, he1m, rfl⟩
  have hmul1 : trialMultipliers entries sampleMult e1.athlete_id
      = sampleMult e1.athlete_id := by
    unfold trialMultipliers
    rw [if_pos hmem1]
  have hmul2 : trialMultipliers entries sampleMult e2.athlete_id
      = sampleMult e1.athlete_id := by
    rw [← haid] at *
    exact hmul1
  refine ⟨sampleMult e1.athlete_id, rfl, hmul1, hmul2, ?_, ?_, ?_, ?_⟩
  · have h : (e1.athlete_id, calculate_base_strength e1.score (scoring c1) *
        trialMultipliers entries sampleMult e1.athlete_id)
        ∈ effectiveStrengths (entriesFor entries c1) (scoring c1)
            (trialMultipliers entries sampleMult) := by
      unfold effectiveStrengths
      exact List.mem_map_of_mem _ he1
    rw [hmul1] at h
    exact h
  · have h : (e2.athlete_id, calculate_base_strength e2.score (scoring c2) *
        trialMultipliers entries sampleMult e2.athlete_id)
        ∈ effectiveStrengths (entriesFor entries c2) (scoring c2)
            (trialMultipliers entries sampleMult) := by
      unfold effectiveStrengths
      exact List.mem_map_of_mem _ he2
    rw [hmul2] at h
    exact h
  · unfold runTrial
    exact List.mem_map_of_mem _ hc1
  · unfold runTrial
    exact List.mem_map_of_mem _ hc2

/-- C9 witness: athlete a of v3Entries enters competitions c1 and c2. -/
theorem C9_witness :
    "c1" ∈ compsInOrder v3Entries ∧ "c2" ∈ compsInOrder v3Entries ∧
      (⟨"c1", "a", 5⟩ : Entry) ∈ entriesFor v3Entries "c1" ∧
      (⟨"c2", "a", 7⟩ : Entry) ∈ entriesFor v3Entries "c2" ∧
      ∃ m : ℚ, m = (fun _ => (2:ℚ)) "a" ∧
        trialMultipliers v3Entries (fun _ => (2:ℚ)) "a" = m ∧
        trialMultipliers v3Entries (fun _ => (2:ℚ)) "a" = m ∧
        ("a", calculate_base_strength 5 ((fun _ => "wc_points") "c1") * m)
          ∈ effectiveStrengths (entriesFor v3Entries "c1")
              ((fun _ => "wc_points") "c1")
              (trialMultipliers v3Entries (fun _ => (2:ℚ))) ∧
        ("a", calculate_base_strength 7 ((fun _ => "wc_points") "c2") * m)
          ∈ effectiveStrengths (entriesFor v3Entries "c2")
              ((fun _ => "wc_points") "c2")
              (trialMultipliers v3Entries (fun _ => (2:ℚ))) ∧
        ("c1", V3simulate_competition (entriesFor v3Entries "c1")
            ((fun _ => "wc_points") "c1")
            (trialMultipliers v3Entries (fun _ => (2:ℚ))) id
            ((fun _ _ => (0:ℚ)) "c1"))
          ∈ runTrial v3Entries (fun _ => "wc_points") (fun _ => (2:ℚ)) id
              (fun _ _ => (0:ℚ)) ∧
        ("c2", V3simulate_competition (entriesFor v3Entries "c2")
            ((fun _ => "wc_points") "c2")
            (trialMultipliers v3Entries (fun _ => (2:ℚ))) id
            ((fun _ _ => (0:ℚ)) "c2"))
          ∈ runTrial v3Entries (fun _ => "wc_points") (fun _ => (2:ℚ)) id
              (fun _ _ => (0:ℚ)) :=
  ⟨by decide, by decide, by decide, by decide,
    C9_multiplier_shared_across_fields v3Entries (fun _ => "wc_points")
      (fun _ => (2:ℚ)) id (fun _ _ => (0:ℚ)) "c1" "c2" ⟨"c1", "a", 5⟩
      ⟨"c2", "a", 7⟩ (by decide) (by decide) (by decide) (by decide) rfl⟩

/-! ## C10: sub-3-entrant fields in the v3 simulator -/

end OlympicPredictions
